import Mathlib

/-!
Verification of the matrix-wysiwyg composer core (crates/wysiwyg).

Shallow embedding of `src/crates/wysiwyg/src/owned_dom.rs` and
`src/crates/wysiwyg/src/composer_model.rs`.

Modelling conventions:
* Rust `Vec<u16>` (UTF-16 code units) is `List Nat`; `String` text content is
  likewise kept as its list of UTF-16 code units, so that all offset
  arithmetic is exactly the code-unit arithmetic of the source.
* The pointer-based parse arena (`Sink.nodes: Vec<Box<UnsafeCell<SquishyNode>>>`,
  `Handle = *const UnsafeCell<SquishyNode>`) is embedded as a list-indexed
  arena: a `Handle` is the index of the node in `Sink.nodes`, and the null
  handle is `Option.none` on parent links.
* A Rust panic (a failed `assert!`, `unwrap`, `expect`, or an invalid
  dereference) is `Option.none`; fallible operations return `Option`.
* Unbounded Rust recursion (`walk`, the recursive ownership transfer in
  `finish`) is given explicit fuel; `finish` passes `nodes.length + 1`,
  which is enough fuel whenever the arena is tree-shaped, since a preorder
  traversal of an acyclic unshared arena is no deeper than its node count.
-/

namespace Wysiwyg

/-- UTF-16 code units of an ASCII string literal (tag names, test text). -/
def uc (s : String) : List Nat := s.toList.map Char.toNat

/-- Whether a list of 16-bit code units is valid UTF-16: every high surrogate
(0xD800–0xDBFF) is immediately followed by a low surrogate (0xDC00–0xDFFF) and
no low surrogate appears unpaired.  `String::from_utf16` in
`composer_model.rs` (`parse_utf16`) panics exactly when this fails. -/
def validUtf16 : List Nat → Bool
  | [] => true
  | u :: rest =>
    if 0xD800 ≤ u ∧ u < 0xDC00 then
      match rest with
      | v :: rest' => decide (0xDC00 ≤ v ∧ v < 0xE000) && validUtf16 rest'
      | [] => false
    else if 0xDC00 ≤ u ∧ u < 0xE000 then false
    else validUtf16 rest

/-- `OwnedAttribute` from owned_dom.rs: a qualified name and a value. -/
structure OwnedAttribute where
  name : String
  value : List Nat
deriving Repr, DecidableEq

/-- `NodeEnum` from owned_dom.rs: the different kinds of nodes in the DOM.
Qualified element names are kept as their local part (the serializer only
reads `qualname.local`). -/
inductive NodeEnum where
  | document
  | doctype (name publicId systemId : List Nat)
  | text (content : List Nat)
  | comment (content : List Nat)
  | element (localName : String) (attrs : List OwnedAttribute)
deriving Repr, DecidableEq

/-- The finalized owned node (`pub struct Node` in owned_dom.rs): the node
data and exclusively owned children.  The `_parent_not_accessible` field of
the Rust struct is dead memory with no accessor; it has no counterpart here —
the finalized representation retains no parent back-references. -/
inductive Node where
  | mk (node : NodeEnum) (children : List Node)
deriving Repr

def Node.node : Node → NodeEnum
  | .mk n _ => n

def Node.children : Node → List Node
  | .mk _ cs => cs

/-- `excluded_tag` from the `Display` impl in owned_dom.rs. -/
def excluded_tag (localName : String) : Bool :=
  match localName with
  | "html" => true
  | "head" => true
  | "body" => true
  | _ => false

/-- What `imp` writes before a node's children (the `Text` content or the
open tag of a non-excluded `Element`). -/
def serPre (n : NodeEnum) : List Nat :=
  match n with
  | .text t => t
  | .element localName _ => if excluded_tag localName then [] else 60 :: uc localName ++ [62]
  | _ => []

/-- What `imp` writes after a node's children (the close tag of a
non-excluded `Element`). -/
def serPost (n : NodeEnum) : List Nat :=
  match n with
  | .element localName _ =>
    if excluded_tag localName then [] else 60 :: 47 :: uc localName ++ [62]
  | _ => []

mutual

/-- The serializer: `fn imp` inside `impl Display for OwnedDom` in
owned_dom.rs, producing the UTF-16 code units of the rendered text. -/
def serNode : Node → List Nat
  | .mk n cs => serPre n ++ serList cs ++ serPost n

/-- Serialization of a children list, in order. -/
def serList : List Node → List Nat
  | [] => []
  | c :: cs => serNode c ++ serList cs

end

mutual

/-- Number of nodes in a finalized owned tree. -/
def countNodes : Node → Nat
  | .mk _ cs => 1 + countList cs

/-- Number of nodes in a forest. -/
def countList : List Node → Nat
  | [] => 0
  | c :: cs => countNodes c + countList cs

end

/-- `OwnedDom` from owned_dom.rs (the `quirks_mode` field is a parser detail
carried through unchanged; it is not modelled). -/
structure OwnedDom where
  document : Node
  errors : List String
deriving Repr

/-- `impl Display for OwnedDom`: serialize from the document root. -/
def OwnedDom.toUnits (d : OwnedDom) : List Nat := serNode d.document

/-- `SquishyNode` from owned_dom.rs: the arena node used during parsing.
`parent` is a nullable `Handle` (an arena index here, `none` for null);
`children` is the ordered list of child handles. -/
structure SquishyNode where
  node : NodeEnum
  parent : Option Nat
  children : List Nat
deriving Repr, DecidableEq

/-- `SquishyNode::new`. -/
def SquishyNode.new (n : NodeEnum) : SquishyNode :=
  { node := n, parent := none, children := [] }

/-- `Sink` from owned_dom.rs: the arena of nodes plus the document handle.
(`quirks_mode` is stored-but-unread state and is not modelled.) -/
structure Sink where
  nodes : List SquishyNode
  document : Nat
  errors : List String
deriving Repr, DecidableEq

/-- `Sink::new_node`: push a fresh node onto the arena and return its handle
(the index of the new slot) together with the grown sink. -/
def Sink.new_node (s : Sink) (n : NodeEnum) : Nat × Sink :=
  (s.nodes.length, { s with nodes := s.nodes ++ [SquishyNode.new n] })

/-- `impl Default for Sink`: an arena holding only the `Document` node, with
`document` pointing at it. -/
def Sink.default : Sink :=
  (Sink.new_node { nodes := [], document := 0, errors := [] } .document).2

/-- In-place mutation of one arena slot (`deref_mut` on a `Handle`). -/
def Sink.modifyNode (s : Sink) (i : Nat) (f : SquishyNode → SquishyNode) : Sink :=
  match s.nodes.get? i with
  | some n => { s with nodes := s.nodes.set i (f n) }
  | none => s

/-- The free function `append` in owned_dom.rs: push `child` onto
`new_parent`'s children, then `assert!` that the child's parent is null and
set it to `new_parent`.  `none` models the assertion failure (or an invalid
handle). -/
def appendFn (s : Sink) (newParent child : Nat) : Option Sink :=
  match s.nodes.get? newParent with
  | none => none
  | some _ =>
    let s1 := s.modifyNode newParent (fun n => { n with children := n.children ++ [child] })
    match s1.nodes.get? child with
    | none => none
    | some cn =>
      match cn.parent with
      | some _ => none
      | none => some (s1.modifyNode child (fun n => { n with parent := some newParent }))

/-- `get_parent_and_index` from owned_dom.rs.  The outer `Option` is the
panic ("have parent but couldn't find in parent's children!" or an invalid
handle); the inner `Option` is the function's own `Option<(Handle, usize)>`,
`none` when the child's parent is null. -/
def get_parent_and_index (s : Sink) (child : Nat) : Option (Option (Nat × Nat)) :=
  match s.nodes.get? child with
  | none => none
  | some cn =>
    match cn.parent with
    | none => some none
    | some p =>
      match s.nodes.get? p with
      | none => none
      | some pn =>
        match pn.children.indexOf? child with
        | some i => some (some (p, i))
        | none => none

/-- `append_to_existing_text` from owned_dom.rs: if `prev` is a `Text` node,
concatenate `text` onto its content in place and report `true`; otherwise
leave the sink unchanged and report `false`. -/
def append_to_existing_text (s : Sink) (prev : Nat) (text : List Nat) :
    Option (Bool × Sink) :=
  match s.nodes.get? prev with
  | none => none
  | some pn =>
    match pn.node with
    | .text existing =>
      some (true, s.modifyNode prev (fun n => { n with node := .text (existing ++ text) }))
    | _ => some (false, s)

/-- `NodeOrText` from html5ever's tree-builder interface, as consumed by
`Sink::append` / `Sink::append_before_sibling`. -/
inductive NodeOrText where
  | appendNode (handle : Nat)
  | appendText (text : List Nat)
deriving Repr, DecidableEq

/-- `Sink::unparent`: remove `target` from its parent's children and null its
parent link; a no-op (`unwrap_or_return!`) when the parent is already null. -/
def Sink.unparent (s : Sink) (target : Nat) : Option Sink :=
  match get_parent_and_index s target with
  | none => none
  | some none => some s
  | some (some (p, i)) =>
    some ((s.modifyNode p (fun n => { n with children := n.children.eraseIdx i })).modifyNode
      target (fun n => { n with parent := none }))

/-- `TreeSink::append` for `Sink` in owned_dom.rs: a text chunk is first
offered to the parent's last child for coalescing; otherwise a node is
appended (allocating a fresh `Text` node for text). -/
def Sink.append (s : Sink) (parent : Nat) (child : NodeOrText) : Option Sink :=
  match s.nodes.get? parent with
  | none => none
  | some pn =>
    match child with
    | .appendText t =>
      match pn.children.getLast? with
      | some h =>
        match append_to_existing_text s h t with
        | none => none
        | some (true, s1) => some s1
        | some (false, s1) =>
          let (idx, s2) := s1.new_node (.text t)
          appendFn s2 parent idx
      | none =>
        let (idx, s1) := s.new_node (.text t)
        appendFn s1 parent idx
    | .appendNode nidx => appendFn s parent nidx

/-- The tail of `append_before_sibling` in owned_dom.rs for an already
materialized child handle: detach the child from any old parent
(`unparent`), point its parent link at `p`, and insert it into `p`'s
children at index `i`. -/
def attachAt (s : Sink) (p i child : Nat) : Option Sink :=
  match s.nodes.get? child with
  | none => none
  | some cn =>
    let s1? : Option Sink := if cn.parent.isSome then s.unparent child else some s
    match s1? with
    | none => none
    | some s1 =>
      some ((s1.modifyNode child (fun n => { n with parent := some p })).modifyNode p
        (fun n => { n with children := n.children.insertIdx i child }))

/-- `TreeSink::append_before_sibling` for `Sink` in owned_dom.rs: find the
sibling's parent and index (`expect`: panic when the sibling has no parent);
for a text chunk at index `i > 0`, first offer it to the child at `i - 1`
for coalescing; otherwise allocate/detach the inserted node and splice it in
at the sibling's index. -/
def Sink.append_before_sibling (s : Sink) (sibling : Nat) (child : NodeOrText) :
    Option Sink :=
  match get_parent_and_index s sibling with
  | none => none
  | some none => none
  | some (some (p, i)) =>
    match child, i with
    | .appendText t, 0 =>
      let (idx, s1) := s.new_node (.text t)
      attachAt s1 p 0 idx
    | .appendText t, j + 1 =>
      match s.nodes.get? p with
      | none => none
      | some pn =>
        match pn.children.get? j with
        | none => none
        | some prev =>
          match append_to_existing_text s prev t with
          | none => none
          | some (true, s1) => some s1
          | some (false, s1) =>
            let (idx, s2) := s1.new_node (.text t)
            attachAt s2 p (j + 1) idx
    | .appendNode n, _ => attachAt s p i n

/-- `TreeSink::remove_from_parent` for `Sink`. -/
def Sink.remove_from_parent (s : Sink) (target : Nat) : Option Sink :=
  s.unparent target

/-- `TreeSink::reparent_children` for `Sink` in owned_dom.rs: move the whole
children list of `node` onto the end of `newParent`'s children
(`Vec::append`), leaving `node` with no children.  Note the source does not
touch the moved children's parent links and does not coalesce text at the
seam. -/
def Sink.reparent_children (s : Sink) (node newParent : Nat) : Option Sink :=
  match s.nodes.get? node, s.nodes.get? newParent with
  | some nn, some _ =>
    some ((s.modifyNode newParent
        (fun n => { n with children := n.children ++ nn.children })).modifyNode
      node (fun n => { n with children := [] }))
  | _, _ => none

/-- `TreeSink::create_element` for `Sink`. -/
def Sink.create_element (s : Sink) (name : String) (attrs : List OwnedAttribute) :
    Nat × Sink :=
  s.new_node (.element name attrs)

/-- `TreeSink::create_comment` for `Sink`. -/
def Sink.create_comment (s : Sink) (text : List Nat) : Nat × Sink :=
  s.new_node (.comment text)

/-- The `walk` closure inside `Sink::finish`: insert the node into the live
set, then recurse into its children in order.  The Rust recursion is
unbounded; `fuel` bounds the depth here, and `finish` passes enough fuel for
any tree-shaped arena. -/
def walk (arena : List SquishyNode) : Nat → Nat → Finset Nat → Finset Nat
  | 0, _, acc => acc
  | fuel + 1, i, acc =>
    let acc1 := insert i acc
    match arena.get? i with
    | none => acc1
    | some n => n.children.foldl (fun a c => walk arena fuel c a) acc1

/-- The preorder listing of arena indices reachable from `i`: the order in
which `walk` first visits them, and the order in which the ownership
transfer of `finish` lays out the owned tree.  `none` when fuel runs out or
a child handle is invalid. -/
def preorder (arena : List SquishyNode) : Nat → Nat → Option (List Nat)
  | 0, _ => none
  | fuel + 1, i =>
    match arena.get? i with
    | none => none
    | some n =>
      match n.children.mapM (preorder arena fuel) with
      | none => none
      | some ls => some (i :: ls.flatten)

/-- The ownership transfer of `Sink::finish`, written as the explicit
recursive construction it performs: each arena index becomes an owned `Node`
holding the owned trees of its children, with the parent back-reference
dropped.  (The source realizes this transfer by reinterpreting the arena
allocations in place — `transmute` of `*const UnsafeCell<SquishyNode>` to
`Box<Node>` — which is memory-layout-level and is embedded here as the
equivalent recursive construction of the same tree.) -/
def buildOwned (arena : List SquishyNode) : Nat → Nat → Option Node
  | 0, _ => none
  | fuel + 1, i =>
    match arena.get? i with
    | none => none
    | some n =>
      match n.children.mapM (buildOwned arena fuel) with
      | none => none
      | some cs => some (.mk n.node cs)

/-- The live set computed at the start of `Sink::finish`: all arena indices
reachable from the document root.  Nodes outside this set are dropped by the
`finish` loop without ever becoming owned nodes. -/
def Sink.liveSet (s : Sink) : Finset Nat :=
  walk s.nodes (s.nodes.length + 1) s.document ∅

/-- `TreeSink::finish` for `Sink`: traverse the live set, drop everything
else, and transfer ownership of the reachable nodes into an `OwnedDom`
rooted at the document node.  `none` models a non-tree-shaped arena, on
which the Rust ownership transfer would be unsound (aliased `Box`es). -/
def Sink.finish (s : Sink) : Option OwnedDom :=
  match buildOwned s.nodes (s.nodes.length + 1) s.document with
  | none => none
  | some t => some { document := t, errors := s.errors }

/-- `ComposerUpdate` — Modelled from the spec: the `ComposerUpdate` type of
crates/wysiwyg is not under src/ (only its call sites
`ComposerUpdate::keep()` and `ComposerUpdate::replace_all(text, start, end)`
are); per the spec it is either `Keep` or
`ReplaceAll(text, selection_start, selection_end)`.  Selection ends are
`Location`s (integers). -/
inductive ComposerUpdate where
  | keep
  | replaceAll (text : List Nat) (start selEnd : Int)
deriving Repr, DecidableEq

/-- `Location` conversion to `usize` — Modelled from the spec: the `Location`
type of crates/wysiwyg is not under src/; per the spec a Location is an
integer code-unit offset on which `-= 1` may go below zero and whose
conversion to an unsigned offset is floored at 0 ("floored at 0", "values
outside this range ... are clamped before use").  A `Location` is an `Int`;
this is its `usize` conversion. -/
def locToUsize (l : Int) : Nat := l.toNat

/-- `parse_utf16` in composer_model.rs — the html5ever parse is Modelled from
the spec: the spec scopes the HTML grammar out as "an external
standards-conformant parser" driving the Sink callbacks.  On markup-free
input (no `<`, `&`, ... — every concrete input in this development is
markup-free) such a parser produces the document framing
`html > (head, body)` with the input as the single text child of `body`
(none for empty input).  `String::from_utf16(&html).unwrap()` panics on
invalid UTF-16, hence `none` there. -/
def parse_utf16 (html : List Nat) : Option OwnedDom :=
  if validUtf16 html then
    some
      { document :=
          .mk .document
            [.mk (.element "html" [])
              [.mk (.element "head" []) [],
               .mk (.element "body" []) (if html.isEmpty then [] else [.mk (.text html) []])]],
        errors := [] }
  else none

/-- `ComposerModel<u16>` from composer_model.rs: the current tree, the cached
rendering (`rendered: Option<Vec<u16>>`), and the selection
(`start`/`end: Location`). -/
structure ComposerState where
  dom : OwnedDom
  rendered : Option (List Nat)
  start : Int
  selEnd : Int
deriving Repr

/-- `ComposerModel::html`: return the cached rendering if present, otherwise
serialize the current tree, cache it, and return it. -/
def ComposerState.html (m : ComposerState) : List Nat × ComposerState :=
  match m.rendered with
  | some ret => (ret, m)
  | none =>
    let r := m.dom.toUnits
    (r, { m with rendered := some r })

/-- `ComposerModel::safe_selection`: convert both selection ends to `usize`,
clamp each to `[0, html.len()]`, and swap them if out of order. -/
def ComposerState.safe_selection (m : ComposerState) : (Nat × Nat) × ComposerState :=
  let (h, m1) := m.html
  let htmlLen := h.length
  let s := min (locToUsize m1.start) htmlLen
  let e := min (locToUsize m1.selEnd) htmlLen
  if s > e then ((e, s), m1) else ((s, e), m1)

/-- `ComposerModel::create_update_replace_all`: a `ReplaceAll` carrying
`html()` and the current selection ends. -/
def ComposerState.create_update_replace_all (m : ComposerState) :
    ComposerUpdate × ComposerState :=
  let (h, m1) := m.html
  (.replaceAll h m1.start m1.selEnd, m1)

/-- `ComposerModel::replace_text`: splice `newText` into the serialized text
over the safe selection, reparse the splice into a new tree, collapse the
selection to `s + newText.len()`, and emit a replace-all update.  Note the
source replaces `self.dom` but leaves `self.rendered` untouched. -/
def ComposerState.replace_text (m : ComposerState) (newText : List Nat) :
    Option (ComposerUpdate × ComposerState) :=
  let ((s, e), m1) := m.safe_selection
  let (h, m2) := m1.html
  let newHtml := h.take s ++ newText ++ h.drop e
  match parse_utf16 newHtml with
  | none => none
  | some dom =>
    let m3 := { m2 with dom := dom,
                        start := (s + newText.length : Nat),
                        selEnd := (s + newText.length : Nat) }
    some m3.create_update_replace_all

/-- `ComposerModel::backspace`: if the selection is collapsed, move `start`
back one code unit, then `replace_text("")`. -/
def ComposerState.backspace (m : ComposerState) : Option (ComposerUpdate × ComposerState) :=
  let m1 := if m.start = m.selEnd then { m with start := m.start - 1 } else m
  m1.replace_text []

/-- `ComposerModel::delete`: if the selection is collapsed, move `end`
forward one code unit, then `replace_text("")`. -/
def ComposerState.delete (m : ComposerState) : Option (ComposerUpdate × ComposerState) :=
  let m1 := if m.start = m.selEnd then { m with selEnd := m.selEnd + 1 } else m
  m1.replace_text []

/-- `ComposerModel::bold`: normalize the selection, `dbg!` the document's
first child (`unwrap`: panic when the document has no children — the `dbg!`
output is the only diagnostic), and emit a replace-all update; every tree
mutation in the source is commented out. -/
def ComposerState.bold (m : ComposerState) : Option (ComposerUpdate × ComposerState) :=
  let (_, m1) := m.safe_selection
  match m1.dom.document.children.head? with
  | none => none
  | some _ => some m1.create_update_replace_all

/-- `ComposerModel::from(html, start, end)` (the constructor the tests use):
parse the text and store the selection verbatim, with no cached rendering. -/
def modelFrom (html : List Nat) (s e : Int) : Option ComposerState :=
  match parse_utf16 html with
  | none => none
  | some dom => some { dom := dom, rendered := none, start := s, selEnd := e }

/-! Definitions used to state the claims. -/

/-- Clamping one selection end, as an integer, to the interval `[0, L]`. -/
def intClamp (x : Int) (L : Nat) : Int := max 0 (min x (L : Int))

/-- Ordering a pair so the first component is ≤ the second, by swapping when
out of order (the swap at the end of `safe_selection`). -/
def orderP {α : Type} [LinearOrder α] (p : α × α) : α × α :=
  if p.1 > p.2 then (p.2, p.1) else p

/-- Whether arena slot `i` currently holds a `Text` node. -/
def textAt (s : Sink) (i : Nat) : Bool :=
  match s.nodes.get? i with
  | some n =>
    match n.node with
    | .text _ => true
    | _ => false
  | none => false

/-- Whether some parent in the arena holds two consecutive children that are
both `Text` nodes. -/
def hasAdjacentTextSiblings (s : Sink) : Bool :=
  s.nodes.any (fun n =>
    (n.children.zip n.children.tail).any (fun pr => textAt s pr.1 && textAt s pr.2))

/-- All child handles in the arena, across every children list. -/
def allChildren (s : Sink) : List Nat := (s.nodes.map SquishyNode.children).flatten

/-- How many children lists (counted with multiplicity of positions) contain
handle `i`. -/
def occursCount (s : Sink) (i : Nat) : Nat := (allChildren s).count i

/-- Parent-link consistency of the arena: every handle found in some node's
children list points back at that node through its parent field. -/
def parentLinkedB (s : Sink) : Bool :=
  (List.range s.nodes.length).all (fun p =>
    match s.nodes.get? p with
    | some np =>
      np.children.all (fun c =>
        match s.nodes.get? c with
        | some nc => nc.parent = some p
        | none => false)
    | none => true)

/-! Concrete states used as counterexamples and witnesses. -/

/-- The owned tree an external standards-conformant parser produces for
`"ab<p>cd</p>"`: the document framing around the text `"ab"` followed by a
block-structural `<p>` element containing `"cd"`.  Its serialization is
`"ab<p>cd</p>"` (11 code units). -/
def crossDom : OwnedDom :=
  { document :=
      .mk .document
        [.mk (.element "html" [])
          [.mk (.element "head" []) [],
           .mk (.element "body" [])
             [.mk (.text (uc "ab")) [],
              .mk (.element "p" []) [.mk (.text (uc "cd")) []]]]],
    errors := [] }

/-- A composer state over `crossDom` whose selection `[1, 6)` starts inside
the text `"ab"` (outside the `<p>`) and ends inside the text `"cd"` (inside
the `<p>`): the selection crosses into a block-structural element, so
wrapping it would produce content partially inside and partially outside
that element. -/
def crossState : ComposerState :=
  { dom := crossDom, rendered := none, start := 1, selEnd := 6 }

/-- A parse arena just before a `reparent_children` call: two elements, each
holding one `Text` child (`"x"` under node 1, `"y"` under node 2).  No
parent holds adjacent `Text` children. -/
def c7Before : Option Sink :=
  let p1 := Sink.default.create_element "a" []
  let p2 := p1.2.create_element "b" []
  (p2.2.append p1.1 (.appendText (uc "x"))).bind fun s3 =>
    s3.append p2.1 (.appendText (uc "y"))

/-- The same arena after `reparent_children(node 1, node 2)`: node 2's
children list becomes `[Text "y", Text "x"]` — two adjacent `Text`
siblings. -/
def c7After : Option Sink := c7Before.bind fun s => s.reparent_children 1 2

/-- A parse arena exercising both text-coalescing paths: node 1 (`"a"`)
holds `[Text "x" (node 2), Element "b" (node 3)]`, and node 4 (`"c"`) holds
`[Text "z" (node 5)]`.  Appending text to node 4 must coalesce into node 5
(its last child is a `Text`); inserting text before sibling 3 must coalesce
into node 2 (the child before the insertion index is a `Text`). -/
def c7Witness : Sink :=
  (((((Sink.default.create_element "a" []).2.append 1 (.appendText (uc "x"))).bind
        fun s => some (s.create_element "b" []).2).bind
      fun s => s.append 1 (.appendNode 3)).bind
    fun s => (s.create_element "c" []).2.append 4 (.appendText (uc "z"))).getD
    Sink.default

/-- An arena with a detached node: the document (node 0) owns element `"a"`
(node 1), while element `"b"` (node 2) was allocated but never attached.
`finish` must reclaim node 2 without building an owned node for it. -/
def c6Sink : Sink :=
  (((Sink.default.create_element "a" []).2.create_element "b" []).2.append 0
      (.appendNode 1)).getD Sink.default

/-- The owned tree `c6Sink.finish` produces: the document owning element
`"a"`, with detached node 2 reclaimed. -/
def c6Dom : OwnedDom :=
  { document := .mk .document [.mk (.element "a" []) []], errors := [] }

/-- The owned tree `parse_utf16` produces for the empty text. -/
def emptyDom : OwnedDom :=
  { document :=
      .mk .document
        [.mk (.element "html" [])
          [.mk (.element "head" []) [], .mk (.element "body" []) []]],
    errors := [] }

/-- The owned tree `parse_utf16` produces for the text `"a"`. -/
def aDom : OwnedDom :=
  { document :=
      .mk .document
        [.mk (.element "html" [])
          [.mk (.element "head" []) [],
           .mk (.element "body" []) [.mk (.text (uc "a")) []]]],
    errors := [] }

/-- A freshly constructed empty composer model (`ComposerModel::new()`). -/
def emptyModel : ComposerState :=
  { dom := emptyDom, rendered := none, start := 0, selEnd := 0 }

/-! Helper lemmas shared between the claim theorems. -/

/-- `create_update_replace_all` always yields a `ReplaceAll` built from
`html()` and the stored selection ends. -/
theorem create_update_replace_all_eq (m : ComposerState) :
    m.create_update_replace_all
      = (.replaceAll (m.html.1) m.start m.selEnd, m.html.2) := by
  cases hr : m.rendered <;>
    simp [ComposerState.create_update_replace_all, ComposerState.html, hr]

/-- Whatever `replace_text` returns (when it does not panic) is a
`ReplaceAll` update. -/
theorem replace_text_shape (m m' : ComposerState) (u : ComposerUpdate) (t : List Nat)
    (h : m.replace_text t = some (u, m')) :
    ∃ txt a b, u = .replaceAll txt a b := by
  unfold ComposerState.replace_text at h
  rcases hss : m.safe_selection with ⟨⟨s, e⟩, m1⟩
  rw [hss] at h
  dsimp only at h
  rcases hh : m1.html with ⟨hl, m2⟩
  rw [hh] at h
  dsimp only at h
  rcases hp : parse_utf16 (hl.take s ++ t ++ hl.drop e) with _ | dom <;> rw [hp] at h
  · exact absurd h (by simp)
  · dsimp only at h
    rw [create_update_replace_all_eq] at h
    exact ⟨_, _, _, (Prod.mk.injEq _ _ _ _ ▸ (Option.some.injEq _ _ ▸ h)).1.symm⟩

/-- `html` only touches the rendering cache: the tree and selection are
unchanged, and a second call returns the same rendering and state. -/
theorem html_snd_fields (m : ComposerState) :
    (m.html.2).dom = m.dom ∧ (m.html.2).start = m.start ∧
    (m.html.2).selEnd = m.selEnd ∧ (m.html.2).html = m.html := by
  cases hr : m.rendered <;> simp [ComposerState.html, hr]

/-- `safe_selection` returns the state produced by `html` (selection reads do
not change it further). -/
theorem safe_selection_snd (m : ComposerState) : (m.safe_selection).2 = m.html.2 := by
  rcases hh : m.html with ⟨hl, m1⟩
  simp only [ComposerState.safe_selection, hh]
  split_ifs <;> rfl

/-! The claim theorems. -/

/-- C5: for all integers s, e and every document length L, ordering the pair
and then clamping both ends to [0, L] gives the same result as clamping both
ends and then ordering; and `safe_selection` — which converts to unsigned,
clamps to the current rendering's length, then orders — computes exactly the
order-then-clamp normal form of the stored selection. -/
theorem safe_selection_order_clamp_commute (s e : Int) (L : Nat) (m : ComposerState) :
    orderP (intClamp s L, intClamp e L)
      = (intClamp (orderP (s, e)).1 L, intClamp (orderP (s, e)).2 L) ∧
    (m.safe_selection).1
      = ((intClamp (min m.start m.selEnd) ((m.html.1).length)).toNat,
         (intClamp (max m.start m.selEnd) ((m.html.1).length)).toNat) := by
  constructor
  · simp only [orderP, intClamp, gt_iff_lt]
    split_ifs <;> simp only [Prod.mk.injEq] <;> omega
  · rcases m with ⟨dom, rendered, st, en⟩
    cases rendered <;>
      simp only [ComposerState.safe_selection, ComposerState.html, locToUsize, intClamp,
        gt_iff_lt] <;>
      split_ifs <;> simp only [Prod.mk.injEq] <;> constructor <;> omega

/-- C8: the serializer emits, for a `Text` node, its literal content; for an
`Element`, an open tag, the serialized children, and a close tag — except
that `html`, `head` and `body` emit only their children; `Comment` and
`Doctype` nodes contribute nothing; and a list of children serializes to the
concatenation of its members' serializations. -/
theorem serializer_emission (t c nm pid sid : List Nat) (q : String)
    (attrs : List OwnedAttribute) (cs : List Node) :
    serNode (.mk (.text t) []) = t ∧
    serNode (.mk (.element q attrs) cs)
      = (if excluded_tag q then serList cs
         else (uc "<" ++ uc q ++ uc ">") ++ serList cs ++ (uc "</" ++ uc q ++ uc ">")) ∧
    serNode (.mk (.comment c) []) = [] ∧
    serNode (.mk (.doctype nm pid sid) []) = [] ∧
    serNode (.mk .document cs) = serList cs ∧
    serList cs = (cs.map serNode).flatten := by
  refine ⟨?_, ?_, rfl, rfl, ?_, ?_⟩
  · simp [serNode, serList, serPre, serPost]
  · simp only [serNode, serPre, serPost]
    split_ifs with hq <;> simp [hq, uc]
  · simp [serNode, serPre, serPost]
  · induction cs with
    | nil => rfl
    | cons c cs ih => simp [serList, ih]

/-- C9: `replace_text`, `backspace`, `delete` and `bold` all return a
`ReplaceAll` update and never `Keep`, whenever they return at all. -/
theorem edits_always_replace_all (m m' : ComposerState) (u : ComposerUpdate)
    (t : List Nat) :
    (m.replace_text t = some (u, m') → ∃ txt a b, u = .replaceAll txt a b) ∧
    (m.backspace = some (u, m') → ∃ txt a b, u = .replaceAll txt a b) ∧
    (m.delete = some (u, m') → ∃ txt a b, u = .replaceAll txt a b) ∧
    (m.bold = some (u, m') → ∃ txt a b, u = .replaceAll txt a b) := by
  refine ⟨fun h => replace_text_shape _ _ _ _ h, fun h => ?_, fun h => ?_, fun h => ?_⟩
  · unfold ComposerState.backspace at h
    exact replace_text_shape _ _ _ _ h
  · unfold ComposerState.delete at h
    exact replace_text_shape _ _ _ _ h
  · unfold ComposerState.bold at h
    rcases hss : m.safe_selection with ⟨se, m1⟩
    rw [hss] at h
    dsimp only at h
    rcases hc : m1.dom.document.children.head? with _ | c <;> rw [hc] at h
    · exact absurd h (by simp)
    · rw [create_update_replace_all_eq] at h
      exact ⟨_, _, _, (Prod.mk.injEq _ _ _ _ ▸ (Option.some.injEq _ _ ▸ h)).1.symm⟩

/-- C1 (failing input): on the model `"abc"` with a caret at 3,
`replace_text("d")` rebuilds the tree so that it serializes to `"abcd"` and
collapses the caret to 4, but the `ReplaceAll` update it returns carries the
pre-mutation text `"abc"`: `safe_selection` populated the rendering cache
from the old tree and `replace_text` never invalidates it, so
`create_update_replace_all` reads the stale cache.  The claim (and the
crate's own test `typing_a_character_at_the_end_appends_it`) requires the
update to carry `"abcd"`. -/
theorem replace_text_update_carries_stale_text :
    ((modelFrom (uc "abc") 3 3).bind (fun m => m.replace_text (uc "d"))).map
        (fun p => (p.1, p.2.dom.toUnits))
      = some (.replaceAll (uc "abc") 4 4, uc "abcd") := by rfl

/-- C2 (failing input): `backspace` moves the collapsed caret back exactly
one code unit with no surrogate-pair check.  On ASCII it deletes the unit
before the caret and is a no-op at 0, and `delete` is a no-op at the end —
but on the document `"\u{1F4A9}"` (`[0xD83D, 0xDCA9]`) with the caret at 2,
`backspace` splices the text down to the lone high surrogate `[0xD83D]`, and
`parse_utf16`'s `String::from_utf16(..).unwrap()` panics on the invalid
UTF-16 (`none` here); `delete` from caret 0 panics symmetrically.  The claim
requires both units of the pair to be removed together. -/
theorem backspace_splits_surrogate_pair_and_panics :
    (((modelFrom (uc "abc") 3 3).bind ComposerState.backspace).map
        (fun p => p.2.dom.toUnits) = some (uc "ab")) ∧
    (((modelFrom (uc "abc") 0 0).bind ComposerState.backspace).map
        (fun p => p.2.dom.toUnits) = some (uc "abc")) ∧
    (((modelFrom (uc "abc") 3 3).bind ComposerState.delete).map
        (fun p => p.2.dom.toUnits) = some (uc "abc")) ∧
    ((modelFrom [0xD83D, 0xDCA9] 2 2).isSome = true) ∧
    (((modelFrom [0xD83D, 0xDCA9] 2 2).bind ComposerState.backspace) = none) ∧
    (((modelFrom [0xD83D, 0xDCA9] 0 0).bind ComposerState.delete) = none) :=
  ⟨rfl, rfl, rfl, rfl, rfl, rfl⟩

/-- C4 (failing input): after `replace_text("d")` on `"abc"` with caret 3,
the model's reported text (`html()`, read here from the returned state) is
still the pre-mutation serialization `"abc"`, while the current tree
serializes to `"abcd"`: the serialization produced before the mutation is
cached in `rendered` and never invalidated, so the reported text does not
equal the serialization of the current tree.  The claim (and the crate's own
test suite, whose `tx` helper reads `html()`) requires `"abcd"`. -/
theorem html_cache_never_invalidated :
    ((modelFrom (uc "abc") 3 3).bind (fun m => m.replace_text (uc "d"))).map
        (fun p => ((p.2.html).1, p.2.dom.toUnits))
      = some (uc "abc", uc "abcd") := by rfl

/-- C3 (counterexample): `crossState`'s selection `[1, 6)` crosses into the
block-structural `<p>` element of `"ab<p>cd</p>"`, yet `bold()` returns a
`ReplaceAll` update — not `Keep` — while indeed leaving the tree
unmodified. -/
theorem bold_cross_returns_replace_all_not_keep :
    crossState.dom.toUnits = uc "ab<p>cd</p>" ∧
    (crossState.bold).map Prod.fst = some (.replaceAll (uc "ab<p>cd</p>") 1 6) ∧
    (crossState.bold).map Prod.fst ≠ some ComposerUpdate.keep ∧
    (crossState.bold).map (fun p => p.2.dom.toUnits) = some (uc "ab<p>cd</p>") := by
  refine ⟨rfl, rfl, by decide, rfl⟩

/-- C3 (amended): on every state on which it does not panic — in particular
every state whose selection crosses a block-structural boundary — `bold()`
performs no tree mutation and returns a `ReplaceAll` update carrying the
unchanged rendered text and the unchanged stored selection, never `Keep`
(its only diagnostic is the `dbg!` print). -/
theorem bold_no_mutation_returns_replace_all (m m' : ComposerState) (u : ComposerUpdate)
    (h : m.bold = some (u, m')) :
    m'.dom = m.dom ∧ u = .replaceAll (m.html.1) m.start m.selEnd := by
  unfold ComposerState.bold at h
  rcases hss : m.safe_selection with ⟨se, m1⟩
  have hm1 : m1 = m.html.2 := by
    have := safe_selection_snd m
    rw [hss] at this
    exact this
  rw [hss] at h
  dsimp only at h
  rcases hc : m1.dom.document.children.head? with _ | c <;> rw [hc] at h
  · exact absurd h (by simp)
  · rw [create_update_replace_all_eq] at h
    obtain ⟨hu, hm⟩ := Prod.mk.injEq .. ▸ (Option.some.injEq .. ▸ h)
    obtain ⟨hdom, hst, hse, hidem⟩ := html_snd_fields m
    subst hm1
    constructor
    · rw [← hm]
      rw [hidem]
      exact hdom
    · rw [← hu, hidem, hst, hse]

/-- Witness for the amended C3 theorem at `crossState`. -/
theorem bold_no_mutation_witness :
    ({ crossState with rendered := some (uc "ab<p>cd</p>") } : ComposerState).dom
        = crossState.dom ∧
    ComposerUpdate.replaceAll (uc "ab<p>cd</p>") 1 6
      = .replaceAll (crossState.html.1) crossState.start crossState.selEnd :=
  bold_no_mutation_returns_replace_all crossState
    { crossState with rendered := some (uc "ab<p>cd</p>") }
    (.replaceAll (uc "ab<p>cd</p>") 1 6) (by rfl)

/-- Witness for C9: each of the four commands, run on a concrete model,
returns a `ReplaceAll` update. -/
theorem edits_always_replace_all_witness :
    (∃ txt a b, ComposerUpdate.replaceAll [] 1 1 = ComposerUpdate.replaceAll txt a b) ∧
    (∃ txt a b, ComposerUpdate.replaceAll [] 0 0 = ComposerUpdate.replaceAll txt a b) ∧
    (∃ txt a b, ComposerUpdate.replaceAll [] 0 0 = ComposerUpdate.replaceAll txt a b) ∧
    (∃ txt a b, ComposerUpdate.replaceAll [] 0 0 = ComposerUpdate.replaceAll txt a b) :=
  ⟨(edits_always_replace_all emptyModel
      { dom := aDom, rendered := some [], start := 1, selEnd := 1 }
      (.replaceAll [] 1 1) (uc "a")).1 (by rfl),
   (edits_always_replace_all emptyModel { emptyModel with rendered := some [] }
      (.replaceAll [] 0 0) []).2.1 (by rfl),
   (edits_always_replace_all emptyModel { emptyModel with rendered := some [] }
      (.replaceAll [] 0 0) []).2.2.1 (by rfl),
   (edits_always_replace_all emptyModel { emptyModel with rendered := some [] }
      (.replaceAll [] 0 0) []).2.2.2 (by rfl)⟩

/-- C7 (counterexample): `reparent_children` does not preserve the
no-adjacent-Text-siblings invariant.  In `c7Before` no parent holds two
consecutive `Text` children; after `reparent_children(1, 2)` node 2 holds
`[Text "y", Text "x"]`. -/
theorem reparent_children_creates_adjacent_texts :
    c7Before.map hasAdjacentTextSiblings = some false ∧
    c7After.map hasAdjacentTextSiblings = some true :=
  ⟨rfl, rfl⟩

/-- C7 (amended): `append` of a text chunk whose parent's last child is a
`Text` node, and `append_before_sibling` of a text chunk whose preceding
child is a `Text` node, concatenate the chunk into that node in place — the
arena is updated at that one slot and no new node is allocated.
(`reparent_children`, by contrast, does not preserve the invariant.) -/
theorem append_coalesces_adjacent_text (s : Sink) (p q sib p2 j prev : Nat)
    (pn qn pn2 prevn : SquishyNode) (ctext ptext t : List Nat)
    (hp : s.nodes.get? p = some pn)
    (hlast : pn.children.getLast? = some q)
    (hq : s.nodes.get? q = some qn)
    (hqt : qn.node = .text ctext)
    (hgpi : get_parent_and_index s sib = some (some (p2, j + 1)))
    (hp2 : s.nodes.get? p2 = some pn2)
    (hprev : pn2.children.get? j = some prev)
    (hprevn : s.nodes.get? prev = some prevn)
    (hpt : prevn.node = .text ptext) :
    Sink.append s p (.appendText t)
      = some (s.modifyNode q (fun n => { n with node := .text (ctext ++ t) })) ∧
    (s.modifyNode q (fun n => { n with node := .text (ctext ++ t) })).nodes.length
      = s.nodes.length ∧
    Sink.append_before_sibling s sib (.appendText t)
      = some (s.modifyNode prev (fun n => { n with node := .text (ptext ++ t) })) ∧
    (s.modifyNode prev (fun n => { n with node := .text (ptext ++ t) })).nodes.length
      = s.nodes.length := by
  refine ⟨?_, ?_, ?_, ?_⟩
  · simp only [Sink.append, hp, hlast, append_to_existing_text, hq, hqt]
  · have hq' : s.nodes[q]? = some qn := List.get?_eq_getElem? _ _ ▸ hq
    simp [Sink.modifyNode, hq']
  · simp only [Sink.append_before_sibling, hgpi, hp2, hprev, append_to_existing_text,
      hprevn, hpt]
  · have hprevn' : s.nodes[prev]? = some prevn := List.get?_eq_getElem? _ _ ▸ hprevn
    simp [Sink.modifyNode, hprevn']

/-- Witness for the amended C7 theorem on the concrete arena `c7Witness`. -/
theorem append_coalesces_witness :
    Sink.append c7Witness 4 (.appendText (uc "w"))
      = some (c7Witness.modifyNode 5 (fun n => { n with node := .text (uc "z" ++ uc "w") })) ∧
    (c7Witness.modifyNode 5
        (fun n => { n with node := .text (uc "z" ++ uc "w") })).nodes.length
      = c7Witness.nodes.length ∧
    Sink.append_before_sibling c7Witness 3 (.appendText (uc "w"))
      = some (c7Witness.modifyNode 2 (fun n => { n with node := .text (uc "x" ++ uc "w") })) ∧
    (c7Witness.modifyNode 2
        (fun n => { n with node := .text (uc "x" ++ uc "w") })).nodes.length
      = c7Witness.nodes.length :=
  append_coalesces_adjacent_text c7Witness 4 5 3 1 0 2
    ⟨.element "c" [], none, [5]⟩ ⟨.text (uc "z"), some 4, []⟩
    ⟨.element "a" [], none, [2, 3]⟩ ⟨.text (uc "x"), some 1, []⟩
    (uc "z") (uc "x") (uc "w")
    (by rfl) (by rfl) (by rfl) (by rfl) (by rfl) (by rfl) (by rfl) (by rfl) (by rfl)

/-- Setting a list entry to the value it already holds is the identity. -/
theorem set_get_self {α : Type} (l : List α) (i : Nat) (x : α)
    (h : l.get? i = some x) : l.set i x = l := by
  induction l generalizing i with
  | nil => rfl
  | cons a t ih =>
    cases i with
    | zero => simp at h; simp [h]
    | succ n =>
      simp only [List.get?_cons_succ] at h
      simp [ih _ h]

/-- Appending one element to the `p`-th sublist adds exactly one occurrence
of that element to the flattened list. -/
theorem flatten_set_append_count (c i : Nat) (L : List (List Nat)) (p : Nat)
    (x : List Nat) (hL : L.get? p = some x) :
    ((L.set p (x ++ [c])).flatten).count i
      = (L.flatten).count i + if c = i then 1 else 0 := by
  induction L generalizing p with
  | nil => simp at hL
  | cons a L ih =>
    cases p with
    | zero =>
      simp at hL
      subst hL
      simp only [List.set_cons_zero, List.flatten_cons, List.count_append,
        List.count_singleton']
      omega
    | succ n =>
      simp only [List.get?_cons_succ] at hL
      simp only [List.set_cons_succ, List.flatten_cons, List.count_append, ih _ hL]
      omega

/-- `appendFn`'s push of `c` onto `p`'s children adds exactly one occurrence
of `c` to the arena's children lists. -/
theorem occursCount_push_child (s : Sink) (p c : Nat) (np : SquishyNode)
    (hp : s.nodes.get? p = some np) (i : Nat) :
    occursCount (s.modifyNode p (fun n => { n with children := n.children ++ [c] })) i
      = occursCount s i + if c = i then 1 else 0 := by
  unfold occursCount allChildren Sink.modifyNode
  rw [hp]
  dsimp only
  rw [List.map_set]
  exact flatten_set_append_count c i _ p np.children
    (by rw [List.get?_map, hp]; rfl)

/-- Rewriting only the parent link of a node leaves every children list —
and hence every occurrence count — unchanged. -/
theorem allChildren_modify_parent (s : Sink) (j : Nat) (pv : Option Nat) :
    allChildren (s.modifyNode j (fun n => { n with parent := pv })) = allChildren s := by
  unfold allChildren Sink.modifyNode
  cases hj : s.nodes.get? j with
  | none => rfl
  | some n =>
    dsimp only
    rw [List.map_set]
    have hm : (s.nodes.map SquishyNode.children).get? j = some n.children := by
      rw [List.get?_map, hj]; rfl
    rw [show ({ node := n.node, parent := pv, children := n.children } :
        SquishyNode).children = n.children from rfl]
    rw [set_get_self _ _ _ hm]

/-- Unpacking `parentLinkedB`: a handle contained in some node's children
list has a node whose parent link points back at that parent. -/
theorem parentLinkedB_spec (s : Sink) (h : parentLinkedB s = true) (p : Nat)
    (np : SquishyNode) (hp : s.nodes.get? p = some np) (c : Nat)
    (hc : c ∈ np.children) :
    ∃ nc, s.nodes.get? c = some nc ∧ nc.parent = some p := by
  unfold parentLinkedB at h
  rw [List.all_eq_true] at h
  have hplt : p < s.nodes.length := by
    by_contra hge
    rw [List.get?_eq_none.mpr (le_of_not_lt hge)] at hp
    exact absurd hp (by simp)
  have hh := h p (List.mem_range.mpr hplt)
  rw [hp] at hh
  dsimp only at hh
  rw [List.all_eq_true] at hh
  have hcc := hh c hc
  cases hcn : s.nodes.get? c with
  | none => rw [hcn] at hcc; exact absurd hcc (by simp)
  | some nc =>
    rw [hcn] at hcc
    dsimp only at hcc
    exact ⟨nc, rfl, of_decide_eq_true hcc⟩

/-- C10: the construction-time `append` requires a parentless child — its
`assert!` never fires when the child's parent link is null — and, on an
arena in which parent links are consistent and no handle occurs in two
children lists, the appended arena again has every handle in at most one
children list (at most once). -/
theorem append_keeps_single_parent (s : Sink) (p c : Nat) (np nc : SquishyNode)
    (hp : s.nodes.get? p = some np) (hc : s.nodes.get? c = some nc)
    (hnull : nc.parent = none)
    (hlink : parentLinkedB s = true)
    (hnd : (allChildren s).Nodup) :
    ∃ s2, appendFn s p c = some s2 ∧ ∀ i, occursCount s2 i ≤ 1 := by
  have hnotmem : c ∉ allChildren s := by
    intro hmem
    rw [allChildren, List.mem_flatten] at hmem
    obtain ⟨cl, hcl, hcmem⟩ := hmem
    rw [List.mem_map] at hcl
    obtain ⟨n, hn, rfl⟩ := hcl
    obtain ⟨idx, hidx⟩ := List.mem_iff_get?.mp hn
    obtain ⟨nc2, hnc2, hpar⟩ := parentLinkedB_spec s hlink idx n hidx c hcmem
    rw [hc] at hnc2
    cases hnc2
    rw [hnull] at hpar
    exact absurd hpar (by simp)
  have hcount0 : (allChildren s).count c = 0 := List.count_eq_zero.mpr hnotmem
  have hplt : p < s.nodes.length := by
    by_contra hge
    rw [List.get?_eq_none.mpr (le_of_not_lt hge)] at hp
    exact absurd hp (by simp)
  unfold appendFn
  rw [hp]
  dsimp only
  have hgetc : ∃ ncX, (s.modifyNode p
      (fun n => { n with children := n.children ++ [c] })).nodes.get? c = some ncX ∧
      ncX.parent = none := by
    by_cases hcp : c = p
    · subst hcp
      rw [hp] at hc
      cases hc
      refine ⟨{ np with children := np.children ++ [c] }, ?_, hnull⟩
      simp only [Sink.modifyNode, hp]
      exact List.get?_set_eq_of_lt _ hplt
    · refine ⟨nc, ?_, hnull⟩
      simp only [Sink.modifyNode, hp]
      rw [List.get?_set_ne _ _ (fun hpc => hcp hpc.symm)]
      exact hc
  obtain ⟨ncX, hncX, hparX⟩ := hgetc
  rw [hncX]
  dsimp only
  rw [hparX]
  dsimp only
  refine ⟨_, rfl, fun i => ?_⟩
  have h2 : occursCount ((s.modifyNode p
      (fun n => { n with children := n.children ++ [c] })).modifyNode c
        (fun n => { n with parent := some p })) i
      = occursCount (s.modifyNode p
        (fun n => { n with children := n.children ++ [c] })) i := by
    unfold occursCount
    rw [allChildren_modify_parent]
  rw [h2, occursCount_push_child s p c np hp i]
  rcases eq_or_ne c i with hci | hci
  · subst hci
    simp [occursCount, hcount0]
  · simp only [if_neg hci, Nat.add_zero]
    exact List.nodup_iff_count_le_one.mp hnd i

/-- Witness for C10 on the concrete arena `c6Sink`: appending the parentless
node 2 to the document succeeds and keeps every handle in at most one
children list. -/
theorem append_keeps_single_parent_witness :
    ∃ s2, appendFn c6Sink 0 2 = some s2 ∧ ∀ i, occursCount s2 i ≤ 1 :=
  append_keeps_single_parent c6Sink 0 2
    ⟨.document, none, [1]⟩ ⟨.element "b" [], none, []⟩
    (by rfl) (by rfl) (by rfl) (by rfl) (by decide)

/-- Lifting the per-node build/preorder correspondence through a children
list: if every child builds, every child has a preorder listing, and the
forest's node count is the total length of those listings. -/
theorem buildOwned_count_list (arena : List SquishyNode) (fuel : Nat)
    (ih : ∀ i t, buildOwned arena fuel i = some t →
      ∃ l, preorder arena fuel i = some l ∧ countNodes t = l.length) :
    ∀ (xs : List Nat) (cs : List Node), xs.mapM (buildOwned arena fuel) = some cs →
      ∃ ls, xs.mapM (preorder arena fuel) = some ls ∧
        countList cs = (ls.flatten).length := by
  intro xs
  induction xs with
  | nil =>
    intro cs h
    simp only [List.mapM_nil, Option.pure_def, Option.some.injEq] at h
    subst h
    exact ⟨[], rfl, rfl⟩
  | cons x xs ihx =>
    intro cs h
    rw [List.mapM_cons] at h
    cases hb : buildOwned arena fuel x with
    | none => rw [hb] at h; exact absurd h (by simp)
    | some t =>
      rw [hb] at h
      cases hrest : xs.mapM (buildOwned arena fuel) with
      | none => rw [hrest] at h; exact absurd h (by simp)
      | some ts =>
        rw [hrest] at h
        simp only [Option.pure_def, Option.bind_eq_bind, Option.some_bind,
          Option.some.injEq] at h
        subst h
        obtain ⟨l1, hl1, hc1⟩ := ih x t hb
        obtain ⟨ls, hls, hcs⟩ := ihx ts hrest
        refine ⟨l1 :: ls, ?_, ?_⟩
        · rw [List.mapM_cons, hl1, hls]
          rfl
        · simp only [countList, List.flatten_cons, List.length_append, hc1, hcs]

/-- The recursive ownership transfer of `finish` builds one owned node per
entry of the preorder listing of the reachable arena indices. -/
theorem buildOwned_count (arena : List SquishyNode) :
    ∀ fuel i t, buildOwned arena fuel i = some t →
      ∃ l, preorder arena fuel i = some l ∧ countNodes t = l.length := by
  intro fuel
  induction fuel with
  | zero => intro i t h; exact absurd h (by simp [buildOwned])
  | succ fuel ih =>
    intro i t h
    unfold buildOwned at h
    cases hg : arena.get? i with
    | none => rw [hg] at h; exact absurd h (by simp)
    | some n =>
      rw [hg] at h
      dsimp only at h
      cases hm : n.children.mapM (buildOwned arena fuel) with
      | none => rw [hm] at h; exact absurd h (by simp)
      | some cs =>
        rw [hm] at h
        dsimp only at h
        obtain rfl : Node.mk n.node cs = t := Option.some.inj h
        obtain ⟨ls, hls, hcs⟩ := buildOwned_count_list arena fuel ih n.children cs hm
        refine ⟨i :: ls.flatten, ?_, ?_⟩
        · unfold preorder
          rw [hg]
          dsimp only
          rw [hls]
        · simp only [countNodes, hcs, List.length_cons]
          omega

/-- Folding `walk` over a children list unions in the preorder listings of
all the children. -/
theorem walk_foldl (arena : List SquishyNode) (fuel : Nat)
    (ih : ∀ i l acc, preorder arena fuel i = some l →
      walk arena fuel i acc = acc ∪ l.toFinset) :
    ∀ (xs : List Nat) (lss : List (List Nat)) (acc : Finset Nat),
      xs.mapM (preorder arena fuel) = some lss →
        xs.foldl (fun a c => walk arena fuel c a) acc
          = acc ∪ (lss.flatten).toFinset := by
  intro xs
  induction xs with
  | nil =>
    intro lss acc h
    simp only [List.mapM_nil, Option.pure_def, Option.some.injEq] at h
    subst h
    simp
  | cons x xs ihx =>
    intro lss acc h
    rw [List.mapM_cons] at h
    cases hb : preorder arena fuel x with
    | none => rw [hb] at h; exact absurd h (by simp)
    | some l1 =>
      rw [hb] at h
      cases hrest : xs.mapM (preorder arena fuel) with
      | none => rw [hrest] at h; exact absurd h (by simp)
      | some ls =>
        rw [hrest] at h
        simp only [Option.pure_def, Option.bind_eq_bind, Option.some_bind,
          Option.some.injEq] at h
        subst h
        simp only [List.foldl_cons, ih x l1 acc hb, ihx ls _ hrest,
          List.flatten_cons, List.toFinset_append]
        rw [Finset.union_assoc]

/-- The live set `walk` collects is exactly the preorder listing of the
reachable indices (unioned into the accumulator). -/
theorem walk_eq_preorder (arena : List SquishyNode) :
    ∀ fuel i l acc, preorder arena fuel i = some l →
      walk arena fuel i acc = acc ∪ l.toFinset := by
  intro fuel
  induction fuel with
  | zero => intro i l acc h; exact absurd h (by simp [preorder])
  | succ fuel ih =>
    intro i l acc h
    unfold preorder at h
    cases hg : arena.get? i with
    | none => rw [hg] at h; exact absurd h (by simp)
    | some n =>
      rw [hg] at h
      dsimp only at h
      cases hm : n.children.mapM (preorder arena fuel) with
      | none => rw [hm] at h; exact absurd h (by simp)
      | some ls =>
        rw [hm] at h
        dsimp only at h
        obtain rfl : i :: ls.flatten = l := Option.some.inj h
        unfold walk
        rw [hg]
        dsimp only
        rw [walk_foldl arena fuel ih n.children ls _ hm]
        rw [List.toFinset_cons, Finset.union_insert, Finset.insert_union]

/-- C6: when `finish` succeeds on a tree-shaped arena (the reachable indices
listed without duplicates), the finalized owned tree holds exactly as many
nodes as the live set `walk` collects from the document root — never more:
unreachable (detached) arena nodes are dropped without an owned node ever
being constructed for them. -/
theorem finish_keeps_exactly_reachable (s : Sink) (d : OwnedDom) (l : List Nat)
    (hfin : s.finish = some d)
    (hpre : preorder s.nodes (s.nodes.length + 1) s.document = some l)
    (hnd : l.Nodup) :
    countNodes d.document = (s.liveSet).card := by
  unfold Sink.finish at hfin
  cases hb : buildOwned s.nodes (s.nodes.length + 1) s.document with
  | none => rw [hb] at hfin; exact absurd hfin (by simp)
  | some t =>
    rw [hb] at hfin
    dsimp only at hfin
    obtain rfl : ({ document := t, errors := s.errors } : OwnedDom) = d :=
      Option.some.inj hfin
    obtain ⟨l2, hl2, hcount⟩ := buildOwned_count s.nodes _ _ _ hb
    rw [hpre] at hl2
    obtain rfl : l = l2 := Option.some.inj hl2
    unfold Sink.liveSet
    rw [walk_eq_preorder s.nodes _ _ _ _ hpre]
    rw [Finset.empty_union, List.toFinset_card_of_nodup hnd]
    exact hcount

/-- Witness for C6 on `c6Sink`: the detached node 2 is reclaimed; the
finalized tree has 2 nodes, matching the live set `{0, 1}`. -/
theorem finish_keeps_exactly_reachable_witness :
    countNodes c6Dom.document = (c6Sink.liveSet).card :=
  finish_keeps_exactly_reachable c6Sink c6Dom [0, 1] (by rfl) (by rfl) (by decide)

end Wysiwyg
